import Mathlib

/-!
Verification development for the EHR-segmenter repository.

The repository ships a Node.js upload server (backend/server.js), a React
front end (client App.js), and a Python segmentation engine
(backend/segmenter/ehr_segmenter_advanced.py).  The Python engine source is
not part of the provided sources, so the grouping / reconciliation / key
assignment core is modelled here from the specification's own words
(sections 3, 4.3, 4.4 and 4.5 of the spec); the server and the front end
are embedded directly from their JavaScript sources.
-/

/-- Modelled from the spec: one extracted PDF page (spec section 3 "Page");
the engine source backend/segmenter/ehr_segmenter_advanced.py is missing
from the provided sources.  `header`, `dos` and `provider` use the empty
string for an absent value, as the spec allows ("may be empty"). -/
structure Page where
  pageNumber : Nat
  rawText : String
  header : String
  dos : String
  provider : String
  deriving Repr, DecidableEq

/-- Modelled from the spec: how many of the three metadata fields
(header, date of service, provider) of page `p` match the anchor page of
the current group.  A match requires a non-empty value on the incoming
page that equals the anchor's value: per spec section 4.3 step 4,
"metadata absence is not evidence", so empty fields never count. -/
def metaMatches (anchor p : Page) : Nat :=
  (if p.header ≠ "" ∧ p.header = anchor.header then 1 else 0) +
  (if p.dos ≠ "" ∧ p.dos = anchor.dos then 1 else 0) +
  (if p.provider ≠ "" ∧ p.provider = anchor.provider then 1 else 0)

/-- Modelled from the spec: the Grouper's decision policy (spec section
4.3 step 3).  `simOK recent p` stands for "content similarity between the
incoming page `p` and the most recent page of the current group exceeds
the continuation threshold"; the similarity metric itself is a pluggable
design parameter (spec section 9), so it is abstracted as a Boolean
predicate.  The page continues the record iff similarity exceeds the
threshold OR at least two of the three metadata fields match the anchor. -/
def continuesGroup (simOK : Page → Page → Bool) (anchor recent p : Page) : Bool :=
  simOK recent p || decide (2 ≤ metaMatches anchor p)

/-- Modelled from the spec: the Similarity Grouper's forward scan (spec
section 4.3).  `anchor` is the first page of the open group, `recent` its
most recent page, `revCur` the open group's pages in reverse order.  When
the incoming page continues the record it is appended to the open group;
otherwise the open group is closed and the page opens a new group as its
anchor.  At end of input the open group closes unconditionally. -/
def groupGo (simOK : Page → Page → Bool) :
    Page → Page → List Page → List Page → List (List Page)
  | _, _, revCur, [] => [revCur.reverse]
  | anchor, recent, revCur, p :: rest =>
    if continuesGroup simOK anchor recent p then
      groupGo simOK anchor p (p :: revCur) rest
    else
      revCur.reverse :: groupGo simOK p p [p] rest

/-- Modelled from the spec: the Similarity Grouper entry point.  An empty
page list yields no groups; otherwise the first page opens the first group
as its anchor (spec section 4.3 step 1). -/
def groupPages (simOK : Page → Page → Bool) : List Page → List (List Page)
  | [] => []
  | p :: rest => groupGo simOK p p [p] rest

/-- Modelled from the spec: one output record of the Key Assigner (spec
section 4.5): a page together with its assigned `referenceKey` and
`parentKey`; the engine source backend/segmenter/ehr_segmenter_advanced.py
is missing from the provided sources. -/
structure Keyed where
  page : Page
  referenceKey : Nat
  parentKey : Nat
  deriving Repr, DecidableEq

/-- Modelled from the spec: the fixed base of the reference-key counter
(spec section 4.5: "a counter starting at a fixed base (120991)"). -/
def baseKey : Nat := 120991

/-- Modelled from the spec: key assignment for the non-first pages of one
group: each receives the next counter value as `referenceKey` and the
group's first-page key as `parentKey` (spec section 4.5). -/
def assignRest (firstKey : Nat) : Nat → List Page → List Keyed
  | _, [] => []
  | counter, p :: ps => ⟨p, counter, firstKey⟩ :: assignRest firstKey (counter + 1) ps

/-- Modelled from the spec: key assignment for one closed group: the first
page takes the current counter value as `referenceKey` and the sentinel 0
as `parentKey`; every following page takes the next counter value and the
first page's `referenceKey` as `parentKey` (spec section 4.5). -/
def assignGroup (counter : Nat) : List Page → List Keyed
  | [] => []
  | first :: rest => ⟨first, counter, 0⟩ :: assignRest counter (counter + 1) rest

/-- Modelled from the spec: the Key Assigner walks the closed groups in
document order, threading the counter across group boundaries so that it
increments by exactly 1 per page across the whole document (spec
section 4.5). -/
def assignGroups : Nat → List (List Page) → List (List Keyed)
  | _, [] => []
  | counter, g :: gs => assignGroup counter g :: assignGroups (counter + g.length) gs

/-- Modelled from the spec: the non-empty values of one metadata field
across a group's pages, in document order (spec section 4.4: "the most
frequent non-empty value across the group's pages"). -/
def nonEmptyVals (vals : List String) : List String :=
  vals.filter (fun v => v ≠ "")

/-- Modelled from the spec: the representative value of one metadata
field: the most frequent non-empty value, frequency ties broken in favour
of the value occurring first in document order — in particular the first
page's value when it is among the tied ones (spec section 4.4). -/
def mostFrequentNonEmpty (vals : List String) : String :=
  (nonEmptyVals vals).foldl
    (fun best v =>
      if (nonEmptyVals vals).count v > (nonEmptyVals vals).count best then v
      else best) ""

/-- Modelled from the spec: the Metadata Reconciler: for header, date of
service and provider independently, compute the group's representative
value and overwrite every member page's field with it (spec section 4.4). -/
def reconcile (g : List Page) : List Page :=
  let h := mostFrequentNonEmpty (g.map Page.header)
  let d := mostFrequentNonEmpty (g.map Page.dos)
  let pr := mostFrequentNonEmpty (g.map Page.provider)
  g.map (fun p => { p with header := h, dos := d, provider := pr })

/-- Modelled from the spec: the full engine pipeline on extracted pages:
group, reconcile each closed group, then assign keys group by group (spec
section 2; the grouped shape of the output records group membership). -/
def engine (simOK : Page → Page → Bool) (ps : List Page) : List (List Keyed) :=
  assignGroups baseKey ((groupPages simOK ps).map reconcile)

/-- Sample page used to instantiate the engine theorems on concrete
documents; pages 1 and 2 share all metadata, page 3 differs in all
fields. -/
def samplePage1 : Page := ⟨1, "alpha one", "Lab Report", "2020-01-01", "Clinic A"⟩

/-- Sample page sharing all metadata fields with `samplePage1`. -/
def samplePage2 : Page := ⟨2, "alpha two", "Lab Report", "2020-01-01", "Clinic A"⟩

/-- Sample page sharing no metadata field with `samplePage1`. -/
def samplePage3 : Page := ⟨3, "gamma", "Progress Note", "2020-02-02", "Clinic B"⟩

/-- Sample page sharing exactly the header field with `samplePage1`. -/
def samplePage4 : Page := ⟨2, "zzz", "Lab Report", "", ""⟩

/-- Sample page whose header carries extraction noise ("Lab Rep0rt"). -/
def samplePage5 : Page := ⟨4, "delta", "Lab Rep0rt", "2020-01-01", "Clinic A"⟩

/-- Similarity stub that never exceeds the continuation threshold. -/
def simNever : Page → Page → Bool := fun _ _ => false

/-- Embedded from src/backend/server.js, the multer fileFilter callback
(lines 31-36): a file whose mimetype is not exactly application/pdf is
rejected with the error "Only PDF files are allowed". -/
def fileFilter (mimetype : String) : Except String Unit :=
  if mimetype ≠ "application/pdf" then Except.error "Only PDF files are allowed"
  else Except.ok ()

/-- Embedded from src/backend/server.js: multer applies `fileFilter` to an
incoming file before storing it; a rejected file never reaches the route
handler as req.file. -/
def acceptedFile (sent : Option String) : Option String :=
  match sent with
  | none => none
  | some m =>
    match fileFilter m with
    | Except.ok _ => some m
    | Except.error _ => none

/-- Embedded from src/backend/server.js, the multer storage filename
callback (lines 24-26): every upload is stored under the constant name
input.pdf, whatever the original file was called. -/
def storedFilename (_originalName : String) : String := "input.pdf"

/-- Embedded from src/backend/server.js, multer destination plus filename
(lines 16-27): the path at which an upload is stored, relative to the
server directory (the __dirname component, identical for all requests, is
elided); the destination directory is the constant uploads. -/
def storedPath (originalName : String) : String :=
  "uploads/" ++ storedFilename originalName

/-- Embedded from src/backend/server.js (lines 47-51): the argument list
of the spawned segmentation process, relative to the server directory:
the input and output paths are constants shared by all requests. -/
def spawnArgs : List String :=
  ["segmenter/ehr_segmenter_advanced.py",
   "--input", "uploads/input.pdf",
   "--output", "uploads/output.csv"]

/-- Stated from the claim's words, for comparison with the embedded
server: concurrent uploads do not interfere only if distinct uploads are
stored at distinct paths. -/
def uploadsIsolated : Prop :=
  ∀ n1 n2 : String, n1 ≠ n2 → storedPath n1 ≠ storedPath n2

/-- Embedded from src/backend/server.js: the observable outcome of one
/api/upload request: HTTP status, error message, success message, csv
payload, and whether the segmentation process was spawned. -/
structure ServerResult where
  status : Nat
  error : Option String
  message : Option String
  csvData : Option String
  spawned : Bool
  deriving Repr, DecidableEq

/-- Embedded from src/backend/server.js, the /api/upload handler (lines
40-77): `file` is req.file after multer (`none` when no file made it
through), `exitCode` the close code of the segmentation process, `csv`
the content of uploads/output.csv.  A missing file yields HTTP 400 before
any process is spawned; a nonzero exit code yields HTTP 500 with no
csvData; exit code 0 yields HTTP 200 with the csv payload. -/
def handleUpload (file : Option String) (exitCode : Int) (csv : String) :
    ServerResult :=
  match file with
  | none => ⟨400, some "No file uploaded", none, none, false⟩
  | some _ =>
    if exitCode ≠ 0 then ⟨500, some "Error processing PDF", none, none, true⟩
    else ⟨200, none, some "File processed successfully", some csv, true⟩

/-- Embedded from src/unnamed/part_001 (client App.js), renderCSVData
(lines 239-245): the JavaScript String.split on a one-character separator,
modelled on character lists: empty pieces are kept and the result always
has exactly one piece more than there are separator occurrences; no CSV
quote handling of any kind. -/
def splitOnChar (sep : Char) : List Char → List (List Char)
  | [] => [[]]
  | c :: cs =>
    if c = sep then [] :: splitOnChar sep cs
    else
      match splitOnChar sep cs with
      | [] => [[c]]
      | r :: rs => (c :: r) :: rs

/-- Embedded from src/unnamed/part_001 renderCSVData (line 242): rows are
obtained by splitting the csv text on the newline character, then each
row is split on the comma character. -/
def renderRows (csvData : List Char) : List (List (List Char)) :=
  (splitOnChar '\n' csvData).map (splitOnChar ',')

/-- Embedded from src/unnamed/part_001 renderCSVData (line 243): the
first row is taken as the header row. -/
def renderHeaders (csvData : List Char) : Option (List (List Char)) :=
  (renderRows csvData).head?

/-- Embedded from src/unnamed/part_001 renderCSVData (line 244): every
row after the first is a data row. -/
def renderData (csvData : List Char) : List (List (List Char)) :=
  (renderRows csvData).drop 1

/-! ## Theorems -/

/-- Flattening the grouping returns the pages of the open group followed
by the remaining input, in document order. -/
theorem groupGo_flatten (simOK : Page → Page → Bool) :
    ∀ (rest : List Page) (anchor recent : Page) (revCur : List Page),
      (groupGo simOK anchor recent revCur rest).flatten = revCur.reverse ++ rest := by
  intro rest
  induction rest with
  | nil => intro anchor recent revCur; simp [groupGo]
  | cons p rest ih =>
    intro anchor recent revCur
    by_cases h : continuesGroup simOK anchor recent p = true
    · simp [groupGo, h, ih]
    · simp [groupGo, h, ih]

/-- The grouping flattens back to the input page list: every page is in
some group, exactly once, and document order is preserved. -/
theorem groupPages_flatten (simOK : Page → Page → Bool) (ps : List Page) :
    (groupPages simOK ps).flatten = ps := by
  cases ps with
  | nil => rfl
  | cons p rest => simp [groupPages, groupGo_flatten]

/-- No group produced by the scan is empty, as long as the open group is
non-empty. -/
theorem groupGo_ne_nil (simOK : Page → Page → Bool) :
    ∀ (rest : List Page) (anchor recent : Page) (revCur : List Page),
      revCur ≠ [] → ∀ g ∈ groupGo simOK anchor recent revCur rest, g ≠ [] := by
  intro rest
  induction rest with
  | nil =>
    intro anchor recent revCur hne g hg
    simp [groupGo] at hg
    subst hg
    simpa using hne
  | cons p rest ih =>
    intro anchor recent revCur hne g hg
    by_cases h : continuesGroup simOK anchor recent p = true
    · simp [groupGo, h] at hg
      exact ih anchor p (p :: revCur) (by simp) g hg
    · simp [groupGo, h] at hg
      rcases hg with hg | hg
      · subst hg; simpa using hne
      · exact ih p p [p] (by simp) g hg

/-- No group produced by the Grouper is empty. -/
theorem groupPages_ne_nil (simOK : Page → Page → Bool) (ps : List Page) :
    ∀ g ∈ groupPages simOK ps, g ≠ [] := by
  cases ps with
  | nil => intro g hg; simp [groupPages] at hg
  | cons p rest =>
    exact groupGo_ne_nil simOK rest p p [p] (by simp)

/-- Chains survive flattening: a relation holding between all consecutive
elements of the flattened list holds within every member list. -/
theorem chain_of_mem_flatten {α : Type} {R : α → α → Prop} :
    ∀ (L : List (List α)), List.Chain' R L.flatten →
      ∀ g ∈ L, List.Chain' R g := by
  intro L
  induction L with
  | nil => intro _ g hg; simp at hg
  | cons l L ih =>
    intro h g hg
    rw [List.flatten_cons] at h
    rw [List.mem_cons] at hg
    rcases hg with hg | hg
    · subst hg; exact h.left_of_append
    · exact ih h.right_of_append g hg

/-- The first group emitted by the scan extends the pages already in the
open group: whatever happens later, the open group's pages stay at the
front of the first emitted group, in order. -/
theorem groupGo_head_extends (simOK : Page → Page → Bool) :
    ∀ (rest : List Page) (anchor recent : Page) (revCur : List Page),
      ∃ t, (groupGo simOK anchor recent revCur rest).head? =
        some (revCur.reverse ++ t) := by
  intro rest
  induction rest with
  | nil =>
    intro anchor recent revCur
    exact ⟨[], by simp [groupGo]⟩
  | cons p rest ih =>
    intro anchor recent revCur
    by_cases h : continuesGroup simOK anchor recent p = true
    · obtain ⟨t, ht⟩ := ih anchor p (p :: revCur)
      refine ⟨p :: t, ?_⟩
      rw [groupGo, if_pos h, ht]
      simp
    · exact ⟨[], by rw [groupGo, if_neg h]; simp⟩

/-- Reference keys of a group's non-first pages are consecutive from the
starting counter. -/
theorem assignRest_map_ref (firstKey : Nat) :
    ∀ (ps : List Page) (counter : Nat),
      (assignRest firstKey counter ps).map Keyed.referenceKey =
        List.range' counter ps.length := by
  intro ps
  induction ps with
  | nil => intro counter; rfl
  | cons p ps ih =>
    intro counter
    rw [assignRest, List.map_cons, ih, List.length_cons, List.range'_succ]

/-- Reference keys of one group are consecutive from the starting counter. -/
theorem assignGroup_map_ref (counter : Nat) (g : List Page) :
    (assignGroup counter g).map Keyed.referenceKey = List.range' counter g.length := by
  cases g with
  | nil => rfl
  | cons first rest =>
    rw [assignGroup, List.map_cons, assignRest_map_ref, List.length_cons,
      List.range'_succ]

/-- Reference keys across all groups are consecutive from the starting
counter, with one key per page. -/
theorem assignGroups_map_ref :
    ∀ (gs : List (List Page)) (counter : Nat),
      (assignGroups counter gs).flatten.map Keyed.referenceKey =
        List.range' counter gs.flatten.length := by
  intro gs
  induction gs with
  | nil => intro counter; rfl
  | cons g gs ih =>
    intro counter
    rw [assignGroups, List.flatten_cons, List.map_append, assignGroup_map_ref, ih,
      List.flatten_cons, List.length_append]
    have := List.range'_append counter g.length gs.flatten.length 1
    rw [Nat.one_mul] at this
    rw [this, Nat.add_comm]

/-- Reconciliation does not add or drop pages. -/
theorem reconcile_length (g : List Page) : (reconcile g).length = g.length := by
  simp [reconcile]

/-- Reconciling every group preserves the total page count. -/
theorem flatten_map_reconcile_length (L : List (List Page)) :
    (L.map reconcile).flatten.length = L.flatten.length := by
  induction L with
  | nil => rfl
  | cons g L ih =>
    rw [List.map_cons, List.flatten_cons, List.flatten_cons, List.length_append,
      List.length_append, reconcile_length, ih]

/-- Every non-first record of one keyed group points back to the group's
first key. -/
theorem assignRest_parent (firstKey : Nat) :
    ∀ (ps : List Page) (counter : Nat),
      ∀ k ∈ assignRest firstKey counter ps, k.parentKey = firstKey := by
  intro ps
  induction ps with
  | nil => intro counter k hk; simp [assignRest] at hk
  | cons p ps ih =>
    intro counter k hk
    rw [assignRest, List.mem_cons] at hk
    rcases hk with hk | hk
    · subst hk; rfl
    · exact ih (counter + 1) k hk

/-- Within every keyed group produced by the assigner, the first record
has `parentKey` 0 and every other record's `parentKey` equals the first
record's `referenceKey`. -/
theorem assignGroups_parent :
    ∀ (gs : List (List Page)) (counter : Nat),
      ∀ kg ∈ assignGroups counter gs, ∀ first rest, kg = first :: rest →
        first.parentKey = 0 ∧ ∀ k ∈ rest, k.parentKey = first.referenceKey := by
  intro gs
  induction gs with
  | nil => intro counter kg hkg; simp [assignGroups] at hkg
  | cons g gs ih =>
    intro counter kg hkg first rest hsplit
    rw [assignGroups, List.mem_cons] at hkg
    rcases hkg with hkg | hkg
    · subst hkg
      cases g with
      | nil => simp [assignGroup] at hsplit
      | cons f r =>
        rw [assignGroup] at hsplit
        injection hsplit with h1 h2
        subst h1; subst h2
        exact ⟨rfl, assignRest_parent counter r (counter + 1)⟩
    · exact ih (counter + g.length) kg hkg first rest hsplit

/-- C1: for every document processed by the engine, the `referenceKey`
values form the sequence 120991, 120992, ... with exactly one key per
page across the whole document regardless of group boundaries — hence
strictly increasing, gap-free, and of length equal to the page count. -/
theorem engine_referenceKeys_dense (simOK : Page → Page → Bool) (ps : List Page) :
    (engine simOK ps).flatten.map Keyed.referenceKey = List.range' 120991 ps.length ∧
    (engine simOK ps).flatten.length = ps.length := by
  have hlen : ((groupPages simOK ps).map reconcile).flatten.length = ps.length := by
    rw [flatten_map_reconcile_length, groupPages_flatten]
  have hmap : (engine simOK ps).flatten.map Keyed.referenceKey =
      List.range' 120991 ps.length := by
    rw [engine, assignGroups_map_ref, hlen]
    rfl
  refine ⟨hmap, ?_⟩
  have := congrArg List.length hmap
  rwa [List.length_map, List.length_range'] at this

/-- C2: for every group produced by the engine, the first page's
`parentKey` is the sentinel 0 and every other page's `parentKey` equals
the `referenceKey` assigned to that group's first page. -/
theorem engine_parentKeys (simOK : Page → Page → Bool) (ps : List Page)
    (kg : List Keyed) (hkg : kg ∈ engine simOK ps)
    (first : Keyed) (rest : List Keyed) (hsplit : kg = first :: rest) :
    first.parentKey = 0 ∧ ∀ k ∈ rest, k.parentKey = first.referenceKey :=
  assignGroups_parent ((groupPages simOK ps).map reconcile) baseKey kg hkg
    first rest hsplit

/-- Witness for C2 on a concrete three-page document: with no content
similarity, pages 1 and 2 share all three metadata fields and form one
group keyed 120991/120992; the second record points back to the first. -/
theorem engine_parentKeys_witness :
    (⟨samplePage1, 120991, 0⟩ : Keyed).parentKey = 0 ∧
    (⟨samplePage2, 120992, 120991⟩ : Keyed).parentKey =
      (⟨samplePage1, 120991, 0⟩ : Keyed).referenceKey :=
  ⟨(engine_parentKeys simNever [samplePage1, samplePage2, samplePage3]
      (⟨samplePage1, 120991, 0⟩ :: [⟨samplePage2, 120992, 120991⟩])
      (by decide) ⟨samplePage1, 120991, 0⟩ [⟨samplePage2, 120992, 120991⟩] rfl).1,
   (engine_parentKeys simNever [samplePage1, samplePage2, samplePage3]
      (⟨samplePage1, 120991, 0⟩ :: [⟨samplePage2, 120992, 120991⟩])
      (by decide) ⟨samplePage1, 120991, 0⟩ [⟨samplePage2, 120992, 120991⟩] rfl).2
     ⟨samplePage2, 120992, 120991⟩ (by decide)⟩

/-- C3: the groups produced by the Similarity Grouper partition the input
pages: flattening the groups in order returns the document exactly (every
page in exactly one group, no gaps, no overlaps, document order kept), no
group is empty, and when the input pages are numbered consecutively every
group is a contiguous run of page numbers. -/
theorem grouper_partitions (simOK : Page → Page → Bool) (ps : List Page) :
    (groupPages simOK ps).flatten = ps ∧
    (∀ g ∈ groupPages simOK ps, g ≠ []) ∧
    (List.Chain' (fun a b => b.pageNumber = a.pageNumber + 1) ps →
      ∀ g ∈ groupPages simOK ps,
        List.Chain' (fun a b => b.pageNumber = a.pageNumber + 1) g) := by
  refine ⟨groupPages_flatten simOK ps, groupPages_ne_nil simOK ps, fun h => ?_⟩
  exact chain_of_mem_flatten (groupPages simOK ps)
    (by rwa [groupPages_flatten])

/-- Witness for C3 on a concrete three-page document with consecutive
page numbers: pages 1 and 2 form one group, which is non-empty and a
contiguous run. -/
theorem grouper_partitions_witness :
    (groupPages simNever [samplePage1, samplePage2, samplePage3]).flatten =
      [samplePage1, samplePage2, samplePage3] ∧
    [samplePage1, samplePage2] ≠ ([] : List Page) ∧
    List.Chain' (fun a b => b.pageNumber = a.pageNumber + 1)
      [samplePage1, samplePage2] :=
  ⟨(grouper_partitions simNever [samplePage1, samplePage2, samplePage3]).1,
   (grouper_partitions simNever [samplePage1, samplePage2, samplePage3]).2.1
     [samplePage1, samplePage2] (by decide),
   (grouper_partitions simNever [samplePage1, samplePage2, samplePage3]).2.2
     (by simp [samplePage1, samplePage2, samplePage3])
     [samplePage1, samplePage2] (by decide)⟩

/-- C4: the Grouper appends an incoming page to the open group iff content
similarity with the most recent page exceeds the threshold OR at least two
of the three metadata fields match the anchor; and in the tie-break case
(exactly one field matches, similarity below threshold) the open group is
closed and the page opens a new group as its own anchor. -/
theorem grouper_decision (simOK : Page → Page → Bool) (anchor recent p : Page)
    (revCur rest : List Page) :
    ((∃ t, (groupGo simOK anchor recent revCur (p :: rest)).head? =
        some (revCur.reverse ++ p :: t)) ↔
      (simOK recent p = true ∨ 2 ≤ metaMatches anchor p)) ∧
    (metaMatches anchor p = 1 → simOK recent p = false →
      groupGo simOK anchor recent revCur (p :: rest) =
        revCur.reverse :: groupGo simOK p p [p] rest) := by
  constructor
  · by_cases h : continuesGroup simOK anchor recent p = true
    · have hrhs : simOK recent p = true ∨ 2 ≤ metaMatches anchor p := by
        rw [continuesGroup, Bool.or_eq_true, decide_eq_true_iff] at h
        exact h
      refine iff_of_true ?_ hrhs
      obtain ⟨t, ht⟩ := groupGo_head_extends simOK rest anchor p (p :: revCur)
      refine ⟨t, ?_⟩
      rw [groupGo, if_pos h, ht]
      simp
    · have hrhs : ¬ (simOK recent p = true ∨ 2 ≤ metaMatches anchor p) := by
        rw [continuesGroup, Bool.or_eq_true, decide_eq_true_iff] at h
        exact h
      refine iff_of_false ?_ hrhs
      rintro ⟨t, ht⟩
      rw [groupGo, if_neg h] at ht
      simp only [List.head?_cons, Option.some.injEq] at ht
      have := congrArg List.length ht
      simp at this
  · intro hmeta hsim
    have h : continuesGroup simOK anchor recent p = false := by
      rw [continuesGroup, hsim, hmeta]
      decide
    rw [groupGo, if_neg (by simp [h])]

/-- Witness for C4 on concrete pages: `samplePage4` matches the anchor's
header only, similarity never fires, so the open group closes and the
page starts a new group. -/
theorem grouper_decision_witness :
    metaMatches samplePage1 samplePage4 = 1 ∧
    simNever samplePage1 samplePage4 = false ∧
    groupGo simNever samplePage1 samplePage1 [samplePage1] [samplePage4] =
      [samplePage1] :: groupGo simNever samplePage4 samplePage4 [samplePage4] [] :=
  ⟨by decide, rfl,
   (grouper_decision simNever samplePage1 samplePage1 samplePage4
      [samplePage1] []).2 (by decide) rfl⟩

/-- C6: the engine is deterministic — two runs on identical extracted-page
input produce identical grouping, identical reconciled metadata, and
identical keyed output (reference and parent keys); the pipeline is a pure
function of the page list. -/
theorem engine_deterministic (simOK : Page → Page → Bool) (ps1 ps2 : List Page)
    (h : ps1 = ps2) :
    groupPages simOK ps1 = groupPages simOK ps2 ∧
    (groupPages simOK ps1).map reconcile = (groupPages simOK ps2).map reconcile ∧
    engine simOK ps1 = engine simOK ps2 := by
  subst h
  exact ⟨rfl, rfl, rfl⟩

/-- Witness for C6 at a concrete one-page document. -/
theorem engine_deterministic_witness :
    groupPages simNever [samplePage1] = groupPages simNever [samplePage1] ∧
    (groupPages simNever [samplePage1]).map reconcile =
      (groupPages simNever [samplePage1]).map reconcile ∧
    engine simNever [samplePage1] = engine simNever [samplePage1] :=
  engine_deterministic simNever [samplePage1] [samplePage1] rfl

/-- Two distinct values cannot together account for more occurrences than
the list has elements. -/
theorem count_pair_le_length (a b : String) (hab : a ≠ b) :
    ∀ l : List String, l.count a + l.count b ≤ l.length := by
  intro l
  induction l with
  | nil => simp
  | cons c l ih =>
    rw [List.count_cons, List.count_cons, List.length_cons]
    rcases eq_or_ne c a with hca | hca
    · have hcb : c ≠ b := fun h => hab (hca.symm.trans h)
      rw [if_pos (by simp [hca]), if_neg (by simp [hcb])]
      omega
    · rcases eq_or_ne c b with hcb | hcb
      · rw [if_neg (by simp [hca]), if_pos (by simp [hcb])]
        omega
      · rw [if_neg (by simp [hca]), if_neg (by simp [hcb])]
        omega

/-- The running fold of the Reconciler returns the value with the strictly
largest count: it displaces any earlier accumulator when reached, and once
the accumulator holds it no later value displaces it. -/
theorem foldl_pick_max (cs : List String) (v : String) :
    ∀ (rest : List String) (b : String),
      (∀ w ∈ rest, w = v ∨ cs.count w < cs.count v) →
      (b = v ∨ (cs.count b < cs.count v ∧ v ∈ rest)) →
      rest.foldl (fun best w => if cs.count w > cs.count best then w else best) b
        = v := by
  intro rest
  induction rest with
  | nil =>
    intro b _ hb
    rcases hb with hb | ⟨_, hmem⟩
    · exact hb
    · simp at hmem
  | cons w rest ih =>
    intro b hrest hb
    rw [List.foldl_cons]
    have hw := hrest w (List.mem_cons_self w rest)
    refine ih _ (fun w' hw' => hrest w' (List.mem_cons_of_mem w hw')) ?_
    rcases hb with hb | ⟨hblt, hvmem⟩
    · subst hb
      rcases hw with hw | hw
      · subst hw
        by_cases hgt : cs.count w > cs.count w <;> simp [hgt]
      · left
        have hngt : ¬ (cs.count w > cs.count b) := by omega
        simp [hngt]
    · rcases hw with hw | hw
      · subst hw
        left
        have hgt : cs.count w > cs.count b := hblt
        simp [hgt]
      · right
        have hvrest : v ∈ rest := by
          rcases List.mem_cons.mp hvmem with hveq | hvr
          · subst hveq; omega
          · exact hvr
        by_cases hgt : cs.count w > cs.count b
        · simp only [hgt, if_true]
          exact ⟨hw, hvrest⟩
        · simp only [hgt, if_false]
          exact ⟨hblt, hvrest⟩

/-- A value held by a strict majority of the pages is the representative
value the Reconciler computes. -/
theorem mostFrequentNonEmpty_majority (vals : List String) (v : String)
    (hv : v ≠ "") (hmaj : vals.length < 2 * vals.count v) :
    mostFrequentNonEmpty vals = v := by
  have hcount : (nonEmptyVals vals).count v = vals.count v := by
    rw [nonEmptyVals]
    exact List.count_filter (by simpa using hv)
  have hlen : (nonEmptyVals vals).length ≤ vals.length :=
    List.length_filter_le _ _
  have hmaj2 : (nonEmptyVals vals).length < 2 * (nonEmptyVals vals).count v := by
    omega
  have hvpos : 0 < (nonEmptyVals vals).count v := by omega
  have hvmem : v ∈ nonEmptyVals vals := List.count_pos_iff.mp hvpos
  have hzero : (nonEmptyVals vals).count "" = 0 := by
    rw [List.count_eq_zero]
    intro hmem
    have := (List.mem_filter.mp hmem).2
    simp at this
  have hmaxw : ∀ w ∈ nonEmptyVals vals,
      w = v ∨ (nonEmptyVals vals).count w < (nonEmptyVals vals).count v := by
    intro w hw
    by_cases hwv : w = v
    · exact Or.inl hwv
    · right
      have := count_pair_le_length w v hwv (nonEmptyVals vals)
      omega
  rw [mostFrequentNonEmpty]
  exact foldl_pick_max (nonEmptyVals vals) v (nonEmptyVals vals) "" hmaxw
    (Or.inr ⟨by omega, hvmem⟩)

/-- C5: the Reconciler overwrites every member page's header, date of
service and provider with the group's representative value (independently
per field), and whenever a strict majority of the group's pages share one
non-empty value of a field, every page of the reconciled group carries
that value. -/
theorem reconcile_majority (g : List Page) (v : String) :
    (∀ p ∈ reconcile g,
       p.header = mostFrequentNonEmpty (g.map Page.header) ∧
       p.dos = mostFrequentNonEmpty (g.map Page.dos) ∧
       p.provider = mostFrequentNonEmpty (g.map Page.provider)) ∧
    (v ≠ "" → g.length < 2 * (g.map Page.header).count v →
       ∀ p ∈ reconcile g, p.header = v) ∧
    (v ≠ "" → g.length < 2 * (g.map Page.dos).count v →
       ∀ p ∈ reconcile g, p.dos = v) ∧
    (v ≠ "" → g.length < 2 * (g.map Page.provider).count v →
       ∀ p ∈ reconcile g, p.provider = v) := by
  have hfields : ∀ p ∈ reconcile g,
      p.header = mostFrequentNonEmpty (g.map Page.header) ∧
      p.dos = mostFrequentNonEmpty (g.map Page.dos) ∧
      p.provider = mostFrequentNonEmpty (g.map Page.provider) := by
    intro p hp
    simp only [reconcile, List.mem_map] at hp
    obtain ⟨q, _, rfl⟩ := hp
    exact ⟨rfl, rfl, rfl⟩
  refine ⟨hfields, ?_, ?_, ?_⟩
  · intro hv hmaj p hp
    rw [(hfields p hp).1]
    exact mostFrequentNonEmpty_majority (g.map Page.header) v hv
      (by rwa [List.length_map])
  · intro hv hmaj p hp
    rw [(hfields p hp).2.1]
    exact mostFrequentNonEmpty_majority (g.map Page.dos) v hv
      (by rwa [List.length_map])
  · intro hv hmaj p hp
    rw [(hfields p hp).2.2]
    exact mostFrequentNonEmpty_majority (g.map Page.provider) v hv
      (by rwa [List.length_map])

/-- Witness for C5: in a four-page group where three pages carry header
"Lab Report" and one carries the noisy "Lab Rep0rt", the noisy page comes
out of reconciliation carrying "Lab Report". -/
theorem reconcile_majority_witness :
    (⟨4, "delta", "Lab Report", "2020-01-01", "Clinic A"⟩ : Page).header
      = "Lab Report" :=
  (reconcile_majority [samplePage1, samplePage2, samplePage5, samplePage1]
      "Lab Report").2.1 (by decide) (by decide)
    ⟨4, "delta", "Lab Report", "2020-01-01", "Clinic A"⟩ (by decide)

/-- C7: a failed run never produces successful-looking output: no
uploaded file yields HTTP 400 with an error before any process is
spawned; a nonzero exit code yields HTTP 500 with an error and no
csvData; and csvData is present only for a run with exit code 0, with
HTTP 200. -/
theorem server_failure_semantics (file : Option String) (code : Int)
    (csv : String) :
    (file = none →
      handleUpload file code csv =
        ⟨400, some "No file uploaded", none, none, false⟩) ∧
    (file ≠ none → code ≠ 0 →
      (handleUpload file code csv).status = 500 ∧
      (handleUpload file code csv).error = some "Error processing PDF" ∧
      (handleUpload file code csv).csvData = none) ∧
    ((handleUpload file code csv).csvData ≠ none →
      file ≠ none ∧ code = 0 ∧
      (handleUpload file code csv).csvData = some csv ∧
      (handleUpload file code csv).status = 200) := by
  cases file with
  | none => refine ⟨fun _ => rfl, fun hf _ => absurd rfl hf, fun hcsv => ?_⟩
            simp [handleUpload] at hcsv
  | some f =>
    by_cases hc : code = 0
    · subst hc
      refine ⟨fun h => by simp at h, fun _ hc => absurd rfl hc, fun _ => ?_⟩
      exact ⟨by simp, rfl, by simp [handleUpload], by simp [handleUpload]⟩
    · refine ⟨fun h => by simp at h, fun _ _ => ?_, fun hcsv => ?_⟩
      · refine ⟨?_, ?_, ?_⟩ <;> simp [handleUpload, hc]
      · exfalso
        simp [handleUpload, hc] at hcsv

/-- Witness for C7 at a concrete failed run: a spawned process that exits
with code 1 produces HTTP 500, an error message, and no csvData. -/
theorem server_failure_semantics_witness :
    (handleUpload (some "input.pdf") 1 "row").status = 500 ∧
    (handleUpload (some "input.pdf") 1 "row").error =
      some "Error processing PDF" ∧
    (handleUpload (some "input.pdf") 1 "row").csvData = none :=
  (server_failure_semantics (some "input.pdf") 1 "row").2.1
    (by simp) (by decide)

/-- C8 counterexample: two uploads with distinct original filenames are
stored at the same path uploads/input.pdf, so the upload layer does share
mutable state between concurrent runs and the claimed isolation fails. -/
theorem upload_storage_counterexample :
    storedPath "a.pdf" = "uploads/input.pdf" ∧
    storedPath "b.pdf" = "uploads/input.pdf" ∧
    ("a.pdf" : String) ≠ "b.pdf" ∧
    ¬ uploadsIsolated := by
  refine ⟨rfl, rfl, by decide, fun h => ?_⟩
  exact h "a.pdf" "b.pdf" (by decide) rfl

/-- C8 amended: the engine's own state is local to one run (the pipeline
is a pure function of its input, compare the determinism theorem), but
the upload layer is not isolated: every upload is stored at the one fixed
path uploads/input.pdf, and every segmentation process is spawned on the
same fixed input and output paths, shared by all requests. -/
theorem upload_storage_shared (n1 n2 : String) :
    storedPath n1 = storedPath n2 ∧
    storedPath n1 = "uploads/input.pdf" ∧
    spawnArgs.contains "uploads/input.pdf" = true ∧
    spawnArgs.contains "uploads/output.csv" = true :=
  ⟨rfl, rfl, by decide, by decide⟩

/-- C9: the upload endpoint accepts only files of mimetype exactly
application/pdf: any other mimetype makes the multer fileFilter yield the
error "Only PDF files are allowed", the file never reaches the handler,
and no segmentation process is spawned. -/
theorem upload_filter_rejects_non_pdf (m : String)
    (hm : m ≠ "application/pdf") (code : Int) (csv : String) :
    fileFilter m = Except.error "Only PDF files are allowed" ∧
    acceptedFile (some m) = none ∧
    (handleUpload (acceptedFile (some m)) code csv).spawned = false := by
  have hf : fileFilter m = Except.error "Only PDF files are allowed" := by
    rw [fileFilter, if_pos hm]
  refine ⟨hf, ?_, ?_⟩
  · simp [acceptedFile, hf]
  · simp [acceptedFile, hf, handleUpload]

/-- Witness for C9 at the concrete mimetype text/plain. -/
theorem upload_filter_rejects_non_pdf_witness :
    fileFilter "text/plain" = Except.error "Only PDF files are allowed" ∧
    acceptedFile (some "text/plain") = none ∧
    (handleUpload (acceptedFile (some "text/plain")) 0 "").spawned = false :=
  upload_filter_rejects_non_pdf "text/plain" (by decide) 0 ""

/-- Splitting never yields an empty list of pieces. -/
theorem splitOnChar_ne_nil (sep : Char) :
    ∀ l : List Char, splitOnChar sep l ≠ [] := by
  intro l
  induction l with
  | nil => simp [splitOnChar]
  | cons c cs ih =>
    rw [splitOnChar]
    by_cases h : c = sep
    · simp [h]
    · rw [if_neg h]
      cases hs : splitOnChar sep cs with
      | nil => simp
      | cons r rs => simp

/-- Splitting yields exactly one piece more than there are separator
occurrences. -/
theorem splitOnChar_length (sep : Char) :
    ∀ l : List Char, (splitOnChar sep l).length = l.count sep + 1 := by
  intro l
  induction l with
  | nil => simp [splitOnChar]
  | cons c cs ih =>
    rw [splitOnChar, List.count_cons]
    by_cases h : c = sep
    · rw [if_pos h, List.length_cons, ih]
      simp [h]
    · rw [if_neg h]
      have hne := splitOnChar_ne_nil sep cs
      cases hs : splitOnChar sep cs with
      | nil => exact absurd hs hne
      | cons r rs =>
        have hbeq : (c == sep) = false := by simp [h]
        rw [hbeq]
        have hcount := ih
        rw [hs] at hcount
        simp only [List.length_cons] at hcount ⊢
        simp only [Bool.false_eq_true, if_false]
        omega

/-- C10: the front end renders csvData by splitting on raw newline and
comma characters with no CSV quote handling: the rows are never empty (so
a header row always exists), and every line renders as exactly one more
cell than it contains comma characters — a quoted comma inside a field
still splits the field. -/
theorem renderCSV_split (csv : List Char) :
    renderRows csv ≠ [] ∧
    renderHeaders csv = (renderRows csv).head? ∧
    renderData csv = (renderRows csv).drop 1 ∧
    ∀ line ∈ splitOnChar '\n' csv,
      (splitOnChar ',' line).length = line.count ',' + 1 ∧
      splitOnChar ',' line ∈ renderRows csv := by
  refine ⟨?_, rfl, rfl, ?_⟩
  · rw [renderRows]
    intro h
    exact splitOnChar_ne_nil '\n' csv (by simpa using h)
  · intro line hline
    exact ⟨splitOnChar_length ',' line,
      List.mem_map_of_mem (splitOnChar ',') hline⟩

/-- Witness for C10 on the concrete csv text a,b⏎c,"d,e": the second line
contains a quoted comma and still renders as three cells, one more than
its two commas. -/
theorem renderCSV_split_witness :
    (splitOnChar ',' ['c', ',', '"', 'd', ',', 'e', '"']).length =
      (['c', ',', '"', 'd', ',', 'e', '"'] : List Char).count ',' + 1 ∧
    splitOnChar ',' ['c', ',', '"', 'd', ',', 'e', '"'] ∈
      renderRows ['a', ',', 'b', '\n', 'c', ',', '"', 'd', ',', 'e', '"'] :=
  (renderCSV_split
      ['a', ',', 'b', '\n', 'c', ',', '"', 'd', ',', 'e', '"']).2.2.2
    ['c', ',', '"', 'd', ',', 'e', '"'] (by decide)
